import Mathlib

/-!
Verification of the price-list ingestion pipeline of the APPLE_CHEAPER
repository: a shallow embedding of `backend/src/services/priceParser.ts`
and of the price-upload endpoints of `backend/src/api/upload.ts`, together
with theorems settling the specification claims about them.

Conventions of the embedding:
* JavaScript numbers are modelled as exact rationals (`ℚ`).  The JS
  string-to-number conversion `parseFloat` is modelled by `parseFloatQ`
  below, which implements the decimal/exponent literal grammar exactly
  over `ℚ`; double rounding, overflow to infinity and the `Infinity`
  keyword are outside the model.
* The Supabase/PostgREST client returns errors in its result object and
  does not throw (the repository itself follows the `if (error) throw
  error` idiom after every checked call).  Store mutations may therefore
  fail; failures are injected through an explicit `EntryFaults` schedule,
  and a call whose result object is ignored by the source simply has no
  observable error.
* Unicode case conversion is modelled for the ASCII and Cyrillic
  alphabets, the alphabets appearing in this code's string literals.
-/

namespace PriceList

/-- The JavaScript `\s` class / `String.prototype.trim` whitespace set. -/
def isJsWhitespace (c : Char) : Bool :=
  c = ' ' || c = '\t' || c = '\n' || c = '\r' || c.toNat = 11 || c.toNat = 12 ||
  c.toNat = 0xa0 || c.toNat = 0x1680 || (0x2000 ≤ c.toNat && c.toNat ≤ 0x200a) ||
  c.toNat = 0x2028 || c.toNat = 0x2029 || c.toNat = 0x202f || c.toNat = 0x205f ||
  c.toNat = 0x3000 || c.toNat = 0xfeff

/-- JavaScript `String.prototype.trim`: drop whitespace at both ends. -/
def jsTrim (s : String) : String :=
  ⟨((s.toList.dropWhile isJsWhitespace).reverse.dropWhile isJsWhitespace).reverse⟩

/-- Unicode simple lower-casing restricted to ASCII and Cyrillic
(JS `String.prototype.toLowerCase` on the alphabets this code uses). -/
def jsToLowerChar (c : Char) : Char :=
  if 'A' ≤ c ∧ c ≤ 'Z' then Char.ofNat (c.toNat + 32)
  else if 'А' ≤ c ∧ c ≤ 'Я' then Char.ofNat (c.toNat + 32)
  else if c = 'Ё' then 'ё'
  else c

/-- Lower-case a whole string (JS `toLowerCase` on ASCII/Cyrillic). -/
def jsToLower (s : String) : String := ⟨s.toList.map jsToLowerChar⟩

/-- Does the second list start with the first one? -/
def startsWithCL : List Char → List Char → Bool
  | [], _ => true
  | _ :: _, [] => false
  | a :: as, b :: bs => a == b && startsWithCL as bs

/-- JS `String.prototype.includes` on char lists: substring containment. -/
def containsCL (needle : List Char) : List Char → Bool
  | [] => needle.isEmpty
  | c :: t => startsWithCL needle (c :: t) || containsCL needle t

/-- JS `s.includes(sub)`. -/
def jsIncludes (s sub : String) : Bool := containsCL sub.toList s.toList

/-- JS `s.includes(c)` for a single-character needle. -/
def containsChar (s : String) (c : Char) : Bool := s.toList.contains c

/-- JS `String.prototype.split` with a one-character separator: keeps
empty fields, always returns at least one (possibly empty) field. -/
def splitCharList (delim : Char) : List Char → List (List Char)
  | [] => [[]]
  | c :: t =>
    if c = delim then [] :: splitCharList delim t
    else
      match splitCharList delim t with
      | [] => [[c]]
      | h :: r => (c :: h) :: r

/-- JS `s.split(d)` for a one-character delimiter, as strings. -/
def jsSplit (s : String) (delim : Char) : List String :=
  (splitCharList delim s.toList).map (fun cs => ⟨cs⟩)

/-- Digit list to natural number, most significant digit first. -/
def digitsToNat (ds : List Char) : Nat :=
  ds.foldl (fun a c => a * 10 + (c.toNat - '0'.toNat)) 0

/-- JavaScript `parseFloat`, modelled exactly over `ℚ`: skip leading
whitespace, optional sign, then the longest prefix of the form
`digits [. digits] [e/E [sign] digits]` (at least one digit in the
integer or fractional part); `none` models NaN (no parsable prefix).
The value `s·M·10^(E-F)` (sign `s`, mantissa `M` = integer and
fractional digits, `F` fractional digits, exponent `E`) is built with a
single `mkRat` so that it evaluates by kernel reduction.  The
`Infinity` literal and double rounding/overflow are not modelled. -/
def parseFloatQ (s : String) : Option ℚ :=
  let cs := s.toList.dropWhile isJsWhitespace
  let sgn : ℤ := match cs with
    | '-' :: _ => -1
    | _ => 1
  let cs := match cs with
    | '+' :: t => t
    | '-' :: t => t
    | _ => cs
  let intPart := cs.takeWhile Char.isDigit
  let cs1 := cs.dropWhile Char.isDigit
  let fracPart := match cs1 with
    | '.' :: t => t.takeWhile Char.isDigit
    | _ => []
  let cs2 := match cs1 with
    | '.' :: t => t.dropWhile Char.isDigit
    | _ => cs1
  if intPart.isEmpty && fracPart.isEmpty then none
  else
    let mantissa : ℤ := (digitsToNat (intPart ++ fracPart) : ℤ)
    let expVal : ℤ := match cs2 with
      | e :: t =>
        if e = 'e' ∨ e = 'E' then
          let esgn : ℤ := match t with
            | '-' :: _ => -1
            | _ => 1
          let t2 := match t with
            | '+' :: u => u
            | '-' :: u => u
            | _ => t
          let eds := t2.takeWhile Char.isDigit
          if eds.isEmpty then 0 else esgn * (digitsToNat eds : ℤ)
        else 0
      | [] => 0
    let e : ℤ := expVal - (fracPart.length : ℤ)
    some (mkRat (sgn * mantissa * (10 : ℤ) ^ e.toNat) ((10 : ℕ) ^ (-e).toNat))

/-- The characters matched by the regex class `[₽$€руб\.rub\s]` with the
`i` flag of `parsePrice` (priceParser.ts line 8).  The `i` flag adds the
opposite-case form of each letter, written out explicitly here; the
non-letter members `₽ $ € .` are case-less and `\s` is
`isJsWhitespace`. -/
def priceStripChars : List Char :=
  ['₽', '$', '€', 'р', 'Р', 'у', 'У', 'б', 'Б', '.', 'r', 'R', 'u', 'U', 'b', 'B']

/-- `parsePrice` (priceParser.ts lines 5-14): delete every character of
the class `[₽$€руб\.rub\s]/i`, turn every `,` into `.`, trim, feed the
result to `parseFloat` and reject NaN and non-positive values. -/
def parsePrice (priceStr : String) : Option ℚ :=
  let step1 : List Char :=
    priceStr.toList.filter (fun c => !(priceStripChars.contains c || isJsWhitespace c))
  let step2 : List Char := step1.map (fun c => if c = ',' then '.' else c)
  let cleaned : String := jsTrim ⟨step2⟩
  match parseFloatQ cleaned with
  | none => none
  | some price => if price ≤ 0 then none else some price

/-- `PriceUpdateItem` (types.ts): one parsed price-list entry.  A JS
optional string field is `Option String`; note that the source can also
store an empty string in a present field. -/
structure PriceUpdateItem where
  article : Option String
  name : Option String
  price : ℚ
deriving DecidableEq, Repr

instance : Inhabited PriceUpdateItem := ⟨⟨none, none, 0⟩⟩

/-- JavaScript truthiness of an optional string field:
`undefined` and the empty string are falsy. -/
def truthy : Option String → Bool
  | none => false
  | some s => !s.isEmpty

/-- JS `s || undefined`: an empty string collapses to `undefined`. -/
def optStr (s : String) : Option String := if s.isEmpty then none else some s

/-- The test `/^[A-Z0-9-_]+$/i.test(parts[0])` of priceParser.ts line 48:
one or more ASCII letters, digits, hyphens or underscores. -/
def isArticleLike (s : String) : Bool :=
  !s.isEmpty && s.toList.all (fun c => c.isAlphanum || c = '-' || c = '_')

/-- One iteration of the `parseCSV` loop (priceParser.ts lines 27-57):
trim the line, skip it when blank, split on the delimiter, trim the
fields; with three or more fields the third is the price and the first
two are article and name (empty strings collapsing to `undefined`); with
exactly two fields the second is the price and the first is classified
as article or name by `isArticleLike`; otherwise, or when the price does
not parse, no entry is produced. -/
def parseCSVLine (delim : Char) (rawLine : String) : Option PriceUpdateItem :=
  let line := jsTrim rawLine
  if line.isEmpty then none
  else
    let parts := (jsSplit line delim).map jsTrim
    match parts with
    | p0 :: p1 :: p2 :: _ =>
      match parsePrice p2 with
      | some price => some ⟨optStr p0, optStr p1, price⟩
      | none => none
    | [p0, p1] =>
      match parsePrice p1 with
      | some price =>
        if isArticleLike p0 then some ⟨some p0, none, price⟩
        else some ⟨none, some p0, price⟩
      | none => none
    | _ => none

/-- Header keywords of priceParser.ts lines 22-25. -/
def headerKeywords : List String := ["артикул", "article", "название", "name"]

/-- `parseCSV` (priceParser.ts lines 17-60): split the trimmed content
into lines, skip the first line when its lower-casing contains a header
keyword, and parse each remaining line with `parseCSVLine`. -/
def parseCSV (content : String) (delim : Char) : List PriceUpdateItem :=
  let lines := jsSplit (jsTrim content) '\n'
  let l0 := jsToLower (lines.headD "")
  let startIndex := if headerKeywords.any (fun k => jsIncludes l0 k) then 1 else 0
  (lines.drop startIndex).filterMap (parseCSVLine delim)

/-- The freeform separators of the regex `[:–-]` (priceParser.ts
line 72): colon, en dash, hyphen. -/
def isFreeformSep (c : Char) : Bool := c = ':' || c = '–' || c = '-'

/-- The regex match `^(.+?)[\s]*[:–-][\s]*(.+)$` of priceParser.ts
line 72, as the leftmost-shortest split: scanning left to right, the
first nonempty prefix followed by optional whitespace, a separator and a
nonempty remainder wins; the second group drops the leading whitespace
of the remainder greedily while keeping it nonempty.  `acc` is the
reversed prefix consumed so far. -/
def freeformSplit (acc : List Char) : List Char → Option (List Char × List Char)
  | [] => none
  | c :: rest =>
    let afterWs := rest.dropWhile isJsWhitespace
    match afterWs with
    | s :: r2 =>
      if isFreeformSep s ∧ r2 ≠ [] then
        let d := r2.dropWhile isJsWhitespace
        let g2 := if d.isEmpty then r2.drop (r2.length - 1) else d
        some ((c :: acc).reverse, g2)
      else freeformSplit (c :: acc) rest
    | [] => freeformSplit (c :: acc) rest

/-- One iteration of the `parseTextFormat` loop (priceParser.ts lines
67-82): trim the line, skip it when blank, match the `Name: Price` /
`Name - Price` pattern, parse the right side as a price and emit an
entry whose name is the trimmed left side. -/
def parseTextLine (rawLine : String) : Option PriceUpdateItem :=
  let trimmed := jsTrim rawLine
  if trimmed.isEmpty then none
  else
    match freeformSplit [] trimmed.toList with
    | some (g1, g2) =>
      match parsePrice ⟨g2⟩ with
      | some price => some ⟨none, some (jsTrim ⟨g1⟩), price⟩
      | none => none
    | none => none

/-- `parseTextFormat` (priceParser.ts lines 63-85). -/
def parseTextFormat (content : String) : List PriceUpdateItem :=
  (jsSplit (jsTrim content) '\n').filterMap parseTextLine

/-- `parsePriceData` (priceParser.ts lines 88-104): trim, then dispatch
on the first matching delimiter test — `;` anywhere, else a tab
anywhere, else a comma anywhere with the first line splitting into at
least two comma fields — and otherwise fall back to the freeform
parser. -/
def parsePriceData (content : String) : List PriceUpdateItem :=
  let trimmed := jsTrim content
  if containsChar trimmed ';' then parseCSV trimmed ';'
  else if containsChar trimmed '\t' then parseCSV trimmed '\t'
  else if containsChar trimmed ',' &&
      (jsSplit ((jsSplit trimmed '\n').headD "") ',').length ≥ 2 then
    parseCSV trimmed ','
  else parseTextFormat trimmed

/-- The key under which an entry is registered by the validator
(priceParser.ts line 215): `item.article || item.name || ''`. -/
def jsKey (it : PriceUpdateItem) : String :=
  if truthy it.article then it.article.getD ""
  else if truthy it.name then it.name.getD "" else ""

/-- The body of the `validatePriceData` loop (priceParser.ts lines
203-220), accumulating the set of already-seen keys. -/
def validateGo (seen : List String) (line : Nat) : List PriceUpdateItem → List String
  | [] => []
  | it :: rest =>
    let e1 : List String :=
      if !truthy it.article && !truthy it.name then
        ["Строка " ++ toString line ++ ": отсутствует артикул или название"]
      else []
    let e2 : List String :=
      if it.price ≤ 0 then ["Строка " ++ toString line ++ ": некорректная цена"]
      else []
    let key := jsKey it
    let e3 : List String :=
      if seen.contains key then
        ["Строка " ++ toString line ++ ": дубликат записи \"" ++ key ++ "\""]
      else []
    e1 ++ (e2 ++ (e3 ++ validateGo (key :: seen) (line + 1) rest))

/-- `validatePriceData` (priceParser.ts lines 193-223): a single
descriptive message for an empty list, otherwise the per-entry warnings
in entry order. -/
def validatePriceData (items : List PriceUpdateItem) : List String :=
  if items.isEmpty then
    ["Не удалось распознать данные. Проверьте формат файла."]
  else validateGo [] 1 items

/-- One row of the `products` table, with the columns this pipeline
touches (`id, article, name, price, updated_at`). -/
structure Product where
  id : Nat
  article : String
  name : String
  price : ℚ
  updated_at : String
deriving DecidableEq, Repr

/-- One row of the append-only `price_history` table. -/
structure HistoryRecord where
  product_id : Nat
  price : ℚ
deriving DecidableEq, Repr

/-- The slice of the database this pipeline reads and writes. -/
structure DB where
  products : List Product
  history : List HistoryRecord
deriving DecidableEq, Repr

/-- One element of `PriceUpdateResult.errors` (types.ts). -/
structure PriceError where
  line : Nat
  article : Option String
  name : Option String
  reason : String
deriving DecidableEq, Repr

/-- `PriceUpdateResult` (types.ts). -/
structure PriceUpdateResult where
  success : Nat
  failed : Nat
  errors : List PriceError
deriving DecidableEq, Repr

/-- PostgREST `.single()`: the data object is non-null exactly when the
query returned exactly one row (zero rows or several rows produce an
error object and a null `data`, which this code never checks). -/
def singleRow {α : Type} : List α → Option α
  | [x] => some x
  | _ => none

/-- SQL `LIKE` pattern matching (`%` any sequence, `_` any character),
with explicit fuel so that it evaluates by kernel reduction; the fuel
`2·|pattern| + 2·|target| + 1` exceeds the recursion depth, every step
of which shortens the pattern or the target. -/
def likeMatchAux : Nat → List Char → List Char → Bool
  | 0, _, _ => false
  | _ + 1, [], [] => true
  | _ + 1, [], _ :: _ => false
  | f + 1, '%' :: ps, [] => likeMatchAux f ps []
  | f + 1, '%' :: ps, c :: ss =>
    likeMatchAux f ps (c :: ss) || likeMatchAux f ('%' :: ps) ss
  | f + 1, '_' :: ps, _ :: ss => likeMatchAux f ps ss
  | f + 1, p :: ps, c :: ss => p == c && likeMatchAux f ps ss
  | _ + 1, _ :: _, [] => false

/-- Postgres `ILIKE`: case-insensitive `LIKE` (both sides lowered). -/
def ilike (pattern target : List Char) : Bool :=
  let p := pattern.map jsToLowerChar
  let t := target.map jsToLowerChar
  likeMatchAux (2 * p.length + 2 * t.length + 1) p t

/-- The filter of `.ilike('name', `%...%`)`: the product name matched
against the pattern `%` ++ entry name ++ `%`. -/
def ilikeName (n : String) (p : Product) : Bool :=
  ilike ('%' :: (n.toList ++ ['%'])) p.name.toList

/-- The product-resolution block shared verbatim by `updatePrices`
(priceParser.ts lines 119-140) and the preview endpoint (upload.ts lines
176-205): when the entry's `article` is truthy, an exact `.eq('article',
...)` lookup through `.single()`; when that produced nothing and `name`
is truthy, an `.ilike('name', `%name%`).limit(1).single()` lookup. -/
def findProductCommit (db : DB) (item : PriceUpdateItem) : Option Product :=
  let byArticle : Option Product :=
    match item.article with
    | some a => if a.isEmpty then none
        else singleRow (db.products.filter (fun p => p.article == a))
    | none => none
  match byArticle with
  | some p => some p
  | none =>
    match item.name with
    | some n => if n.isEmpty then none
        else singleRow ((db.products.filter (ilikeName n)).take 1)
    | none => none

/-- Failure injection for the two store writes an entry performs: `none`
means the call succeeds, `some msg` that it fails with that error
message in its result object. -/
structure EntryFaults where
  insertErr : Option String
  updateErr : Option String

/-- The fault-free schedule. -/
def noFaults : Nat → EntryFaults := fun _ => ⟨none, none⟩

/-- The outcome of one entry of the `updatePrices` loop. -/
inductive EntryOutcome where
  | success
  | failure (e : PriceError)
deriving DecidableEq, Repr

/-- The body of the `updatePrices` loop for the entry at 0-based index
`idx` (priceParser.ts lines 114-187): resolve the product; on no match
fail with reason `Товар не найден`; otherwise run the history insert —
whose result object the source discards, so a failed insert changes
nothing and is not observed — and then the price update, which on error
fails the entry with the underlying message and otherwise rewrites the
product row with the new price and timestamp. -/
def stepEntry (faults : Nat → EntryFaults) (now : String) (db : DB) (idx : Nat)
    (item : PriceUpdateItem) : EntryOutcome × DB :=
  match findProductCommit db item with
  | none => (.failure ⟨idx + 1, item.article, item.name, "Товар не найден"⟩, db)
  | some product =>
    let db1 : DB :=
      match (faults idx).insertErr with
      | none => ⟨db.products, db.history ++ [⟨product.id, product.price⟩]⟩
      | some _ => db
    match (faults idx).updateErr with
    | some msg => (.failure ⟨idx + 1, item.article, item.name, msg⟩, db1)
    | none =>
      (.success,
        ⟨db1.products.map (fun p =>
            if p.id == product.id then ⟨p.id, p.article, p.name, item.price, now⟩
            else p),
          db1.history⟩)

/-- The `updatePrices` loop from index `idx` on, threading the store
state and accumulating the result counters and the error list in entry
order. -/
def updateGo (faults : Nat → EntryFaults) (now : String) :
    DB → Nat → List PriceUpdateItem → PriceUpdateResult × DB
  | db, _, [] => (⟨0, 0, []⟩, db)
  | db, idx, item :: rest =>
    let so := stepEntry faults now db idx item
    let rr := updateGo faults now so.2 (idx + 1) rest
    match so.1 with
    | .success => (⟨rr.1.success + 1, rr.1.failed, rr.1.errors⟩, rr.2)
    | .failure e => (⟨rr.1.success, rr.1.failed + 1, e :: rr.1.errors⟩, rr.2)

/-- `updatePrices` (priceParser.ts lines 107-190), with the store state
explicit and write failures injected by `faults`. -/
def updatePrices (db : DB) (items : List PriceUpdateItem)
    (faults : Nat → EntryFaults) (now : String) : PriceUpdateResult × DB :=
  updateGo faults now db 0 items

/-- One element of the preview endpoint's `items` array (upload.ts lines
207-214). -/
structure PreviewRow where
  article : Option String
  name : Option String
  price : ℚ
  product_id : Option Nat
  product_name : Option String
  current_price : Option ℚ
  price_change : Option ℚ
  found : Bool
deriving DecidableEq, Repr

/-- The per-entry enrichment of the preview endpoint (upload.ts lines
171-215): the same two lookups as the committer, then the row with the
matched product's id, name and price, the price delta when a product was
found, and the `found` flag. -/
def previewRow (db : DB) (item : PriceUpdateItem) : PreviewRow :=
  let byArticle : Option Product :=
    match item.article with
    | some a => if a.isEmpty then none
        else singleRow (db.products.filter (fun p => p.article == a))
    | none => none
  let resolved : Option Product :=
    match byArticle with
    | some p => some p
    | none =>
      match item.name with
      | some n => if n.isEmpty then none
          else singleRow ((db.products.filter (ilikeName n)).take 1)
      | none => none
  { article := item.article
    name := item.name
    price := item.price
    product_id := resolved.map (fun p => p.id)
    product_name := resolved.map (fun p => p.name)
    current_price := resolved.map (fun p => p.price)
    price_change := (resolved.map (fun p => p.price)).map (fun c => item.price - c)
    found := (resolved.map (fun p => p.price)).isSome }

/-- The `summary` object of the preview endpoint (upload.ts lines
218-225). -/
structure PreviewSummary where
  total : Nat
  found : Nat
  not_found : Nat
  price_increased : Nat
  price_decreased : Nat
  price_unchanged : Nat
deriving DecidableEq, Repr

/-- The summary counts over the enriched rows (upload.ts lines 218-225);
`price_change === 0` is false for `null`, so unchanged counts only found
rows. -/
def previewSummary (rows : List PreviewRow) (total : Nat) : PreviewSummary :=
  { total := total
    found := (rows.filter (fun r => r.found)).length
    not_found := (rows.filter (fun r => !r.found)).length
    price_increased := (rows.filter (fun r =>
      match r.price_change with
      | some c => decide (0 < c)
      | none => false)).length
    price_decreased := (rows.filter (fun r =>
      match r.price_change with
      | some c => decide (c < 0)
      | none => false)).length
    price_unchanged := (rows.filter (fun r => r.price_change == some 0)).length }

/-- The responses the two price-upload handlers can produce (ignoring
the no-content 400 and the catch-all 500, which take no part in the
claims): the validation 400, the lightweight `preview=true` body, the
commit result body, and the full preview body. -/
inductive UploadResponse where
  | badRequest (error : String) (details : List String)
  | previewLite (items : List PriceUpdateItem) (count : Nat)
  | updateResult (result : PriceUpdateResult)
  | previewFull (items : List PreviewRow) (summary : PreviewSummary)
      (validationErrors : List String)
deriving DecidableEq, Repr

/-- `POST /api/upload/prices` (upload.ts lines 106-148), given the
request content: parse, validate — a non-empty validation list is a 400
before anything else —, return the parsed items when `preview=true`,
and otherwise run `updatePrices` against the store. -/
def pricesHandler (db : DB) (content : String) (previewFlag : Bool)
    (faults : Nat → EntryFaults) (now : String) : UploadResponse × DB :=
  let items := parsePriceData content
  let validationErrors := validatePriceData items
  if !validationErrors.isEmpty then
    (.badRequest "Validation failed" validationErrors, db)
  else if previewFlag then (.previewLite items items.length, db)
  else
    let rd := updatePrices db items faults now
    (.updateResult rd.1, rd.2)

/-- `POST /api/upload/prices/preview` (upload.ts lines 151-236): parse,
validate, enrich every entry with its current catalog price, and answer
with rows, summary and the validation list — validation never blocks
here. -/
def previewHandler (db : DB) (content : String) : UploadResponse × DB :=
  let items := parsePriceData content
  let validationErrors := validatePriceData items
  let rows := items.map (previewRow db)
  (.previewFull rows (previewSummary rows items.length) validationErrors, db)

/-- The four parsing strategies of the format-detection cascade
(spec §4.1). -/
inductive PriceFormat where
  | semi
  | tab
  | comma
  | freeform
deriving DecidableEq, Repr

/-- The format-detection cascade as the specification words it
(spec §4.1): `;` anywhere wins, else a tab anywhere, else a comma
anywhere with the first line splitting into at least two comma fields,
else freeform. -/
def detectFormatSpec (t : String) : PriceFormat :=
  if containsChar t ';' then .semi
  else if containsChar t '\t' then .tab
  else if containsChar t ',' &&
      (jsSplit ((jsSplit t '\n').headD "") ',').length ≥ 2 then .comma
  else .freeform

/-- Parsing with an already-chosen strategy (spec §4.1/§4.2). -/
def applyFormat : PriceFormat → String → List PriceUpdateItem
  | .semi, t => parseCSV t ';'
  | .tab, t => parseCSV t '\t'
  | .comma, t => parseCSV t ','
  | .freeform, t => parseTextFormat t

/-- Price parsing as amended: the regex class deletes the sixteen
characters of `priceStripChars` — the individual characters `₽ $ € р у
б . r u b` in both letter cases, not the tokens `руб`/`rub` — and all
whitespace; then commas become dots and the result goes through
`parseFloat` with NaN and non-positive values rejected.  (Stated
without the source's final `trim`, which is a no-op after all
whitespace has been deleted.) -/
def parsePriceAmended (s : String) : Option ℚ :=
  let stripped :=
    s.toList.filter (fun c => !(priceStripChars.contains c || isJsWhitespace c))
  let converted := stripped.map (fun c => if c = ',' then '.' else c)
  match parseFloatQ ⟨converted⟩ with
  | none => none
  | some q => if q ≤ 0 then none else some q

/-- Case-insensitive prefix test (ASCII/Cyrillic lowering). -/
def startsWithCI : List Char → List Char → Bool
  | [], _ => true
  | _ :: _, [] => false
  | a :: as, b :: bs => jsToLowerChar a == jsToLowerChar b && startsWithCI as bs

/-- Delete every case-insensitive occurrence of the given tokens from a
character list, scanning left to right; `fuel` (initially the list
length) makes the recursion structural, and every step consumes at
least one character as long as every token is nonempty. -/
def stripToksAux (toks : List (List Char)) : Nat → List Char → List Char
  | _, [] => []
  | 0, cs => cs
  | f + 1, c :: cs =>
    match toks.findSome?
        (fun t => if startsWithCI t (c :: cs) then some t.length else none) with
    | some n => stripToksAux toks f ((c :: cs).drop n)
    | none => c :: stripToksAux toks f cs

/-- Price parsing exactly as claim C2 words it: strip the currency
symbols `₽ $ €`, the currency tokens `руб` and `rub`
(case-insensitively) and whitespace, convert `,` to `.`, parse as a
floating-point number and reject NaN and non-positive results. -/
def parsePriceClaimSpec (s : String) : Option ℚ :=
  let noSymbols :=
    s.toList.filter
      (fun c => !((['₽', '$', '€'] : List Char).contains c || isJsWhitespace c))
  let noTokens :=
    stripToksAux [String.toList "руб", String.toList "rub"] noSymbols.length noSymbols
  let converted := noTokens.map (fun c => if c = ',' then '.' else c)
  match parseFloatQ ⟨converted⟩ with
  | none => none
  | some q => if q ≤ 0 then none else some q

/-- The three warnings an entry can raise, against a given list of
previously seen keys (claim C9's reading of the validator). -/
def warnAt (prevKeys : List String) (line : Nat) (it : PriceUpdateItem) : List String :=
  (if !truthy it.article && !truthy it.name then
    ["Строка " ++ toString line ++ ": отсутствует артикул или название"]
  else []) ++
  ((if it.price ≤ 0 then ["Строка " ++ toString line ++ ": некорректная цена"]
  else []) ++
  (if prevKeys.contains (jsKey it) then
    ["Строка " ++ toString line ++ ": дубликат записи \"" ++ jsKey it ++ "\""]
  else []))

/-- The warnings of the entry at 0-based position `i`, claim-shaped:
line number `i + 1` and the duplicate check against the keys of the
entries strictly before `i`. -/
def entryWarnings (items : List PriceUpdateItem) (i : Nat) : List String :=
  warnAt ((items.take i).map jsKey) (i + 1) (items.getD i default)

/-- The validator output as claim C9 describes it: a single descriptive
message for the empty list, otherwise the concatenation, in entry
order, of each entry's warnings. -/
def validateSpec (items : List PriceUpdateItem) : List String :=
  if items = [] then ["Не удалось распознать данные. Проверьте формат файла."]
  else (List.range items.length).flatMap (entryWarnings items)

/-- The identity of a product row: the columns the resolution lookups
read (`id`, `article`, `name`), which price updates never touch. -/
def identKey (p : Product) : Nat × String × String := (p.id, p.article, p.name)

/-- A one-product catalog used as concrete input. -/
def demoDB : DB := ⟨[⟨1, "A", "Prod", 100, "t0"⟩], []⟩

/-- An empty store used as concrete input. -/
def emptyDB : DB := ⟨[], []⟩

/-- A schedule on which every history insert fails while every product
update succeeds. -/
def insertFailFaults : Nat → EntryFaults := fun _ => ⟨some "insert failed", none⟩

/-- A second such schedule with a distinct error message. -/
def insertFailFaults2 : Nat → EntryFaults := fun _ => ⟨some "db down", none⟩

/-- Two entries against `demoDB`: the first matches product 1 by
article, the second matches nothing. -/
def c6Items : List PriceUpdateItem := [⟨some "A", none, 50⟩, ⟨some "ZZZ", none, 10⟩]

/-! ## Helper lemmas -/

theorem dropWhile_all_false {p : Char → Bool} :
    ∀ {l : List Char}, (∀ c ∈ l, p c = false) → l.dropWhile p = l := by
  intro l h
  cases l with
  | nil => rfl
  | cons c t =>
    have hc : p c = false := h c (List.mem_cons_self c t)
    simp [List.dropWhile, hc]

theorem jsTrim_of_no_ws {cs : List Char}
    (h : ∀ c ∈ cs, isJsWhitespace c = false) : jsTrim ⟨cs⟩ = ⟨cs⟩ := by
  have h2 : ∀ c ∈ cs.reverse, isJsWhitespace c = false := by
    intro c hc
    exact h c (List.mem_reverse.mp hc)
  unfold jsTrim
  rw [show (String.mk cs).toList = cs from rfl, dropWhile_all_false h,
    dropWhile_all_false h2, List.reverse_reverse]

theorem parsePrice_pos {s : String} {q : ℚ} (h : parsePrice s = some q) : 0 < q := by
  unfold parsePrice at h
  dsimp only at h
  split at h
  · exact absurd h (by simp)
  · split at h
    · exact absurd h (by simp)
    · next hle =>
      cases h
      exact lt_of_not_le hle

theorem parseCSVLine_pos {d : Char} {l : String} {it : PriceUpdateItem}
    (h : parseCSVLine d l = some it) : 0 < it.price := by
  unfold parseCSVLine at h
  dsimp only at h
  split at h
  · exact absurd h (by simp)
  · split at h
    · split at h
      · next hp =>
        cases h
        exact parsePrice_pos hp
      · exact absurd h (by simp)
    · split at h
      · next hp =>
        split at h <;> (cases h; exact parsePrice_pos hp)
      · exact absurd h (by simp)
    · exact absurd h (by simp)

theorem parseTextLine_pos {l : String} {it : PriceUpdateItem}
    (h : parseTextLine l = some it) : 0 < it.price := by
  unfold parseTextLine at h
  dsimp only at h
  split at h
  · exact absurd h (by simp)
  · split at h
    · split at h
      · next hp =>
        cases h
        exact parsePrice_pos hp
      · exact absurd h (by simp)
    · exact absurd h (by simp)

theorem parseCSV_pos {c : String} {d : Char} {it : PriceUpdateItem}
    (h : it ∈ parseCSV c d) : 0 < it.price := by
  unfold parseCSV at h
  rw [List.mem_filterMap] at h
  obtain ⟨l, _, hl⟩ := h
  exact parseCSVLine_pos hl

theorem parseTextFormat_pos {c : String} {it : PriceUpdateItem}
    (h : it ∈ parseTextFormat c) : 0 < it.price := by
  unfold parseTextFormat at h
  rw [List.mem_filterMap] at h
  obtain ⟨l, _, hl⟩ := h
  exact parseTextLine_pos hl

/-! ## Claim C1 -/

/-- Claim C1, counterexample: the delimited line `;;100` has a valid
price and two empty identifier fields, and the parser emits for it an
entry with neither `article` nor `name` — the data-model invariant
"at least one of `article`/`name` must be present" does not hold for
every emitted entry. -/
theorem parser_presence_cex :
    parsePriceData ";;100" = [⟨none, none, 100⟩] ∧
    ∃ it ∈ parsePriceData ";;100", truthy it.article = false ∧ truthy it.name = false := by
  decide

/-- Claim C1, amended: every entry emitted by `parsePriceData` (in
delimited or freeform mode) has a positive price, and lines whose price
fails to parse or with fewer than two delimited fields are skipped
without emitting an entry (the parser, a total function, never throws);
however an emitted entry may lack both `article` and `name` when the
identifier fields of a delimited line are empty — that part of the
data-model invariant is only enforced later by the validator. -/
theorem parser_entries_positive (content : String) (it : PriceUpdateItem)
    (h : it ∈ parsePriceData content) : 0 < it.price := by
  unfold parsePriceData at h
  dsimp only at h
  split at h
  · exact parseCSV_pos h
  · split at h
    · exact parseCSV_pos h
    · split at h
      · exact parseCSV_pos h
      · exact parseTextFormat_pos h

/-- Witness for `parser_entries_positive` at the concrete input `A;10`. -/
theorem parser_entries_positive_witness :
    (⟨some "A", none, 10⟩ : PriceUpdateItem) ∈ parsePriceData "A;10" ∧
    (0 : ℚ) < (⟨some "A", none, (10 : ℚ)⟩ : PriceUpdateItem).price :=
  ⟨by decide, parser_entries_positive "A;10" _ (by decide)⟩

/-! ## Claim C2 -/

/-- Claim C2, counterexample: on the input `1.5` the claimed algorithm
(strip the currency tokens and whitespace, convert commas, parse) yields
`1.5`, but `parsePrice` yields `15`, because the source's regex class
`[₽$€руб\.rub\s]` also deletes every `.` (and the letters `р у б r u b`
individually). -/
theorem parsePrice_token_strip_cex :
    parsePriceClaimSpec "1.5" = some (mkRat 3 2) ∧
    parsePrice "1.5" = some 15 ∧
    (mkRat 3 2 : ℚ) ≠ 15 := by
  decide

/-- Claim C2, amended: price parsing deletes the individual characters
`₽ $ € р у б . r u b` (case-insensitively — not the tokens `руб`/`rub`,
and including the dot) and whitespace, converts `,` to `.`, parses the
result as a floating-point number and rejects exactly NaN and
non-positive results; the claim's examples hold: `125 000 руб.` parses
to `125000`, `12,50€` to `12.50`, and `-5` and `abc` are rejected. -/
theorem parsePrice_char_strip :
    (∀ s, parsePrice s = parsePriceAmended s) ∧
    parsePrice "125 000 руб." = some 125000 ∧
    parsePrice "12,50€" = some (mkRat 25 2) ∧
    parsePrice "-5" = none ∧
    parsePrice "abc" = none := by
  refine ⟨fun s => ?_, by decide, by decide, by decide, by decide⟩
  have h : ∀ c ∈ (s.toList.filter
        (fun c => !(priceStripChars.contains c || isJsWhitespace c))).map
        (fun c => if c = ',' then '.' else c), isJsWhitespace c = false := by
    intro c hc
    simp only [List.mem_map, List.mem_filter] at hc
    obtain ⟨b, ⟨_, hbp⟩, rfl⟩ := hc
    simp only [Bool.not_eq_eq_eq_not, Bool.not_true, Bool.or_eq_false_iff] at hbp
    by_cases hcm : b = ','
    · simp only [hcm, if_pos]
      decide
    · simp [hcm, hbp.2]
  simp only [parsePrice, parsePriceAmended]
  rw [jsTrim_of_no_ws h]

/-! ## Claim C3 -/

/-- Claim C3: format detection follows the first-match-wins cascade in
the exact priority order semicolon > tab > comma > freeform —
`parsePriceData` equals parsing the trimmed content with the strategy
chosen by the spec's cascade — and the input `a;b,c` is treated as
`;`-delimited even though it also contains a comma. -/
theorem format_detection_cascade :
    (∀ content, parsePriceData content =
      applyFormat (detectFormatSpec (jsTrim content)) (jsTrim content)) ∧
    detectFormatSpec "a;b,c" = PriceFormat.semi ∧
    parsePriceData "a;b,c" = parseCSV "a;b,c" ';' := by
  refine ⟨fun content => ?_, by decide, by decide⟩
  cases h1 : containsChar (jsTrim content) ';' <;>
    cases h2 : containsChar (jsTrim content) '\t' <;>
      simp [parsePriceData, detectFormatSpec, applyFormat, h1, h2] <;>
        split <;> simp [applyFormat]

/-! ## Claims C4 and C5 -/

/-- Claim C4, code bug: the source discards the result of the
price-history insert, so when that insert fails while the price update
succeeds (schedule `insertFailFaults`), the entry is counted as a
success, the product's price becomes the new price, and yet no
`PriceHistoryRecord` with the previous price 100 (or any record at all)
is appended. -/
theorem history_skip_on_ignored_insert_failure :
    updatePrices demoDB [⟨some "A", none, 50⟩] insertFailFaults "t1"
      = (⟨1, 0, []⟩, ⟨[⟨1, "A", "Prod", 50, "t1"⟩], []⟩) := by
  decide

/-- Claim C5, code bug: on a failing history insert with a succeeding
update, the committer counts the entry as a success — `failed` stays 0
and no error `{line, article, name, reason}` is appended, contrary to
the claim that a failed history insert fails the entry. -/
theorem insert_failure_not_counted :
    updatePrices demoDB [⟨some "A", none, 60⟩] insertFailFaults2 "t2"
      = (⟨1, 0, []⟩, ⟨[⟨1, "A", "Prod", 60, "t2"⟩], []⟩) := by
  decide

/-! ## Claim C7 -/

/-- Claim C7: a preview invocation — the dedicated
`POST /api/upload/prices/preview` endpoint, or `POST /api/upload/prices`
with `preview=true` — performs no writes: the store (products and price
history) is unchanged by the request. -/
theorem preview_no_writes (db : DB) (content : String) (faults : Nat → EntryFaults)
    (now : String) :
    (previewHandler db content).2 = db ∧ (pricesHandler db content true faults now).2 = db := by
  refine ⟨rfl, ?_⟩
  by_cases hv : (validatePriceData (parsePriceData content)).isEmpty <;>
    simp [pricesHandler, hv]

/-! ## Claim C8 -/

/-- Claim C8, counterexample: on `POST /api/upload/prices` the
validation check runs before the `preview=true` branch, so a preview
request over content with a duplicate entry is answered with the
validation 400 rather than with the validation errors returned
informationally. -/
theorem preview_flag_validation_blocks_cex :
    pricesHandler emptyDB "A;10\nA;20" true noFaults "t4"
      = (.badRequest "Validation failed" ["Строка 2: дубликат записи \"A\""], emptyDB) := by
  decide

/-- Claim C8, amended: a non-empty validation-error list causes
`POST /api/upload/prices` to respond 400 and apply no updates in both
commit mode and `preview=true` mode (only the dedicated
`/prices/preview` endpoint returns the validation errors informationally
without blocking), and empty input (no parsed entries) yields the single
descriptive message and a 400 on `POST /api/upload/prices`. -/
theorem upload_validation_gate (db : DB) (content : String)
    (faults : Nat → EntryFaults) (now : String) :
    (validatePriceData (parsePriceData content) ≠ [] →
      pricesHandler db content false faults now
        = (.badRequest "Validation failed" (validatePriceData (parsePriceData content)), db) ∧
      pricesHandler db content true faults now
        = (.badRequest "Validation failed" (validatePriceData (parsePriceData content)), db)) ∧
    (previewHandler db content).1
      = .previewFull ((parsePriceData content).map (previewRow db))
          (previewSummary ((parsePriceData content).map (previewRow db))
            (parsePriceData content).length)
          (validatePriceData (parsePriceData content)) ∧
    (parsePriceData content = [] →
      validatePriceData (parsePriceData content)
        = ["Не удалось распознать данные. Проверьте формат файла."] ∧
      pricesHandler db content false faults now
        = (.badRequest "Validation failed"
            (validatePriceData (parsePriceData content)), db)) := by
  refine ⟨fun hne => ?_, rfl, fun he => ?_⟩
  · rcases hv : validatePriceData (parsePriceData content) with _ | ⟨e, es⟩
    · exact absurd hv hne
    · constructor <;> simp [pricesHandler, hv]
  · have hmsg : validatePriceData (parsePriceData content)
        = ["Не удалось распознать данные. Проверьте формат файла."] := by
      rw [he]
      rfl
    refine ⟨hmsg, ?_⟩
    simp [pricesHandler, hmsg]

/-- Witness for `upload_validation_gate`: the empty-input branch at
content `""` and the non-empty-validation branch at `A;10\nA;20`. -/
theorem upload_validation_gate_witness :
    pricesHandler emptyDB "" false noFaults "t5"
      = (.badRequest "Validation failed"
          ["Не удалось распознать данные. Проверьте формат файла."], emptyDB) ∧
    pricesHandler emptyDB "A;10\nA;20" false noFaults "t5"
      = (.badRequest "Validation failed" ["Строка 2: дубликат записи \"A\""], emptyDB) := by
  constructor
  · obtain ⟨hmsg, heq⟩ := (upload_validation_gate emptyDB "" noFaults "t5").2.2 (by decide)
    rw [hmsg] at heq
    exact heq
  · have h1 := ((upload_validation_gate emptyDB "A;10\nA;20" noFaults "t5").1 (by decide)).1
    rw [show validatePriceData (parsePriceData "A;10\nA;20")
        = ["Строка 2: дубликат записи \"A\""] from by decide] at h1
    exact h1

/-! ## Claim C9 -/

theorem contains_shuffle (x k : String) :
    ∀ (A B : List String), ((x :: A) ++ B).contains k = (A ++ (x :: B)).contains k := by
  intro A
  induction A with
  | nil => intro B; rfl
  | cons a A ih =>
    intro B
    simp only [List.cons_append, List.contains_cons]
    rw [← ih B]
    simp only [List.cons_append, List.contains_cons]
    rw [Bool.or_left_comm]

theorem warnAt_congr {l1 l2 : List String} (h : ∀ k, l1.contains k = l2.contains k)
    (line : Nat) (it : PriceUpdateItem) : warnAt l1 line it = warnAt l2 line it := by
  unfold warnAt
  rw [h (jsKey it)]

theorem validateGo_flatMap :
    ∀ (items : List PriceUpdateItem) (seen : List String) (line : Nat),
      validateGo seen line items =
        (List.range items.length).flatMap
          (fun i => warnAt (seen ++ (items.take i).map jsKey) (line + i)
            (items.getD i default)) := by
  intro items
  induction items with
  | nil => intro seen line; rfl
  | cons it rest ih =>
    intro seen line
    have hstep : validateGo seen line (it :: rest)
        = warnAt seen line it ++ validateGo (jsKey it :: seen) (line + 1) rest := by
      simp [validateGo, warnAt, List.append_assoc]
    rw [hstep, ih (jsKey it :: seen) (line + 1), List.length_cons,
      List.range_succ_eq_map, List.flatMap_cons, List.flatMap_map]
    congr 1
    · simp
    · congr 1
      funext i
      have hkeys : ∀ k, ((jsKey it :: seen) ++ (rest.take i).map jsKey).contains k
          = (seen ++ (jsKey it :: (rest.take i).map jsKey)).contains k := by
        intro k
        exact contains_shuffle (jsKey it) k seen ((rest.take i).map jsKey)
      rw [warnAt_congr hkeys]
      simp only [Function.comp, List.take_succ_cons, List.map_cons, List.getD_cons_succ]
      congr 1
      omega

/-- Claim C9: the validator returns exactly one top-level message (and
nothing else) on the empty list, and otherwise, in entry order with
1-indexed positions, one warning per entry missing both article and
name, one per entry with non-positive price, and one per entry whose key
(truthy article, else truthy name, else the empty string) already
occurred among the earlier entries; being a pure function of the list it
mutates and filters nothing. -/
theorem validate_spec_shape (items : List PriceUpdateItem) :
    validatePriceData items = validateSpec items := by
  cases items with
  | nil => rfl
  | cons it rest =>
    show validateGo [] 1 (it :: rest)
        = (List.range (it :: rest).length).flatMap (entryWarnings (it :: rest))
    rw [validateGo_flatMap]
    congr 1
    funext i
    unfold entryWarnings
    simp [Nat.add_comm]

/-! ## Claim C10 -/

theorem stepEntry_failure_line {faults : Nat → EntryFaults} {now : String} {db : DB}
    {idx : Nat} {item : PriceUpdateItem} {e : PriceError}
    (h : (stepEntry faults now db idx item).1 = .failure e) : e.line = idx + 1 := by
  unfold stepEntry at h
  dsimp only at h
  split at h
  · cases h
    rfl
  · split at h
    · cases h
      rfl
    · exact absurd h (by simp)

theorem updateGo_invariants (faults : Nat → EntryFaults) (now : String) :
    ∀ (items : List PriceUpdateItem) (db : DB) (idx : Nat),
      (updateGo faults now db idx items).1.success
          + (updateGo faults now db idx items).1.failed = items.length ∧
      (updateGo faults now db idx items).1.errors.length
          = (updateGo faults now db idx items).1.failed ∧
      List.Pairwise (fun a b => a.line < b.line) (updateGo faults now db idx items).1.errors ∧
      ∀ e ∈ (updateGo faults now db idx items).1.errors,
        idx + 1 ≤ e.line ∧ e.line ≤ idx + items.length := by
  intro items
  induction items with
  | nil =>
    intro db idx
    exact ⟨rfl, rfl, List.Pairwise.nil, by simp [updateGo]⟩
  | cons item rest ih =>
    intro db idx
    obtain ⟨ih1, ih2, ih3, ih4⟩ := ih (stepEntry faults now db idx item).2 (idx + 1)
    rcases hso : (stepEntry faults now db idx item).1 with _ | e
    · simp only [updateGo, hso, List.length_cons]
      refine ⟨by omega, ih2, ih3, ?_⟩
      intro x hx
      have := ih4 x hx
      omega
    · have hline : e.line = idx + 1 := stepEntry_failure_line hso
      simp only [updateGo, hso, List.length_cons]
      refine ⟨by omega, by simp [ih2], ?_, ?_⟩
      · refine List.Pairwise.cons ?_ ih3
        intro b hb
        have := ih4 b hb
        omega
      · intro x hx
        rcases List.mem_cons.mp hx with hx1 | hx2
        · subst hx1
          omega
        · have := ih4 x hx2
          omega

/-- Claim C10: for an input of N entries the committer's result — over
any store state and any injected-failure schedule — satisfies
`success + failed = N` and `errors.length = failed`, exactly one of the
two counters being incremented per entry, and the error list carries
strictly increasing line numbers drawn from `1..N`. -/
theorem update_result_invariants (db : DB) (items : List PriceUpdateItem)
    (faults : Nat → EntryFaults) (now : String) :
    (updatePrices db items faults now).1.success
        + (updatePrices db items faults now).1.failed = items.length ∧
    (updatePrices db items faults now).1.errors.length
        = (updatePrices db items faults now).1.failed ∧
    List.Pairwise (fun a b => a.line < b.line) (updatePrices db items faults now).1.errors ∧
    ∀ e ∈ (updatePrices db items faults now).1.errors,
      1 ≤ e.line ∧ e.line ≤ items.length := by
  obtain ⟨h1, h2, h3, h4⟩ := updateGo_invariants faults now items db 0
  refine ⟨h1, h2, h3, ?_⟩
  intro e he
  have := h4 e he
  omega

/-- Witness for `update_result_invariants`: its error-line bounds
applied at the concrete run of `c6Items` against `demoDB`, whose second
entry fails with line number 2. -/
theorem update_result_invariants_witness : 1 ≤ (2 : Nat) ∧ (2 : Nat) ≤ c6Items.length := by
  have h := (update_result_invariants demoDB c6Items noFaults "t6").2.2.2
    ⟨2, some "ZZZ", none, "Товар не найден"⟩ (by decide)
  exact h

/-! ## Claim C6 -/

theorem filter_map_identKey (f : Nat × String × String → Bool) :
    ∀ {l1 l2 : List Product}, l1.map identKey = l2.map identKey →
      (l1.filter (fun p => f (identKey p))).map identKey
        = (l2.filter (fun p => f (identKey p))).map identKey := by
  intro l1
  induction l1 with
  | nil =>
    intro l2 h
    cases l2 with
    | nil => rfl
    | cons b t2 => simp at h
  | cons a t ih =>
    intro l2 h
    cases l2 with
    | nil => simp at h
    | cons b t2 =>
      simp only [List.map_cons, List.cons.injEq] at h
      obtain ⟨h1, h2⟩ := h
      have ha : f (identKey a) = f (identKey b) := by rw [h1]
      simp only [List.filter_cons, ha]
      cases hf : f (identKey b) <;> simp [hf, h1, ih h2]

theorem singleRow_map {α β : Type} (g : α → β) :
    ∀ {l1 l2 : List α}, l1.map g = l2.map g →
      (singleRow l1).map g = (singleRow l2).map g := by
  intro l1 l2 h
  rcases l1 with _ | ⟨a, _ | ⟨a2, t1⟩⟩ <;> rcases l2 with _ | ⟨b, _ | ⟨b2, t2⟩⟩ <;>
    simp_all [singleRow]

theorem findProductCommit_stable {db1 db2 : DB}
    (h : db1.products.map identKey = db2.products.map identKey)
    (item : PriceUpdateItem) :
    (findProductCommit db1 item).map identKey
      = (findProductCommit db2 item).map identKey := by
  have hname : ∀ n : String,
      (singleRow ((db1.products.filter (ilikeName n)).take 1)).map identKey
        = (singleRow ((db2.products.filter (ilikeName n)).take 1)).map identKey := by
    intro n
    apply singleRow_map
    rw [List.map_take, List.map_take]
    exact congrArg (List.take 1)
      (filter_map_identKey (fun t => ilike ('%' :: (n.toList ++ ['%'])) t.2.2.toList) h)
  have hnameBranch :
      (match item.name with
        | some n => if n.isEmpty then none
            else singleRow ((db1.products.filter (ilikeName n)).take 1)
        | none => (none : Option Product)).map identKey
      = (match item.name with
        | some n => if n.isEmpty then none
            else singleRow ((db2.products.filter (ilikeName n)).take 1)
        | none => none).map identKey := by
    rcases item.name with _ | n
    · rfl
    · by_cases hne : n.isEmpty = true <;> simp [hne, hname n]
  unfold findProductCommit
  dsimp only
  rcases ha : item.article with _ | a
  · exact hnameBranch
  · by_cases hae : a.isEmpty = true
    · simp only [hae, if_pos]
      exact hnameBranch
    · simp only [hae, if_neg, Bool.false_eq_true, not_false_eq_true]
      have hart : (singleRow (db1.products.filter (fun p => p.article == a))).map identKey
          = (singleRow (db2.products.filter (fun p => p.article == a))).map identKey :=
        singleRow_map identKey (filter_map_identKey (fun t => t.2.1 == a) h)
      revert hart
      generalize singleRow (db1.products.filter (fun p => p.article == a)) = o1
      generalize singleRow (db2.products.filter (fun p => p.article == a)) = o2
      intro hart
      rcases o1 with _ | p1 <;> rcases o2 with _ | p2
      · exact hnameBranch
      · simp at hart
      · simp at hart
      · exact hart

theorem stepEntry_products_ident (faults : Nat → EntryFaults) (now : String) (db : DB)
    (idx : Nat) (item : PriceUpdateItem) :
    ((stepEntry faults now db idx item).2).products.map identKey
      = db.products.map identKey := by
  rcases hres : findProductCommit db item with _ | product <;>
    rcases hins : (faults idx).insertErr with _ | imsg <;>
    rcases hu : (faults idx).updateErr with _ | msg <;>
    simp only [stepEntry, hres, hins, hu] <;>
    first
    | rfl
    | (rw [List.map_map]
       apply List.map_congr_left
       intro p _
       by_cases hc : p.id = product.id <;> simp [hc, identKey])

theorem updateGo_products_ident (faults : Nat → EntryFaults) (now : String) :
    ∀ (items : List PriceUpdateItem) (db : DB) (idx : Nat),
      ((updateGo faults now db idx items).2).products.map identKey
        = db.products.map identKey := by
  intro items
  induction items with
  | nil => intro db idx; rfl
  | cons item rest ih =>
    intro db idx
    rcases hso : (stepEntry faults now db idx item).1 with _ | e <;>
      simp only [updateGo, hso] <;>
      rw [ih (stepEntry faults now db idx item).2 (idx + 1),
        stepEntry_products_ident]

theorem previewRow_fields (db : DB) (item : PriceUpdateItem) :
    (previewRow db item).found = (findProductCommit db item).isSome ∧
    (previewRow db item).product_id = (findProductCommit db item).map (fun p => p.id) ∧
    (previewRow db item).current_price = (findProductCommit db item).map (fun p => p.price) ∧
    (previewRow db item).price_change
      = ((findProductCommit db item).map (fun p => p.price)).map
          (fun c => item.price - c) := by
  refine ⟨?_, rfl, rfl, rfl⟩
  show ((findProductCommit db item).map (fun p => p.price)).isSome
      = (findProductCommit db item).isSome
  exact Option.isSome_map'

theorem updateGo_append (faults : Nat → EntryFaults) (now : String) :
    ∀ (xs ys : List PriceUpdateItem) (db : DB) (idx : Nat),
      updateGo faults now db idx (xs ++ ys)
        = (⟨(updateGo faults now db idx xs).1.success
              + (updateGo faults now (updateGo faults now db idx xs).2
                  (idx + xs.length) ys).1.success,
            (updateGo faults now db idx xs).1.failed
              + (updateGo faults now (updateGo faults now db idx xs).2
                  (idx + xs.length) ys).1.failed,
            (updateGo faults now db idx xs).1.errors
              ++ (updateGo faults now (updateGo faults now db idx xs).2
                  (idx + xs.length) ys).1.errors⟩,
          (updateGo faults now (updateGo faults now db idx xs).2
            (idx + xs.length) ys).2) := by
  intro xs
  induction xs with
  | nil =>
    intro ys db idx
    simp [updateGo]
  | cons x xs ih =>
    intro ys db idx
    have hidx : idx + (x :: xs).length = (idx + 1) + xs.length := by
      simp only [List.length_cons]
      omega
    rw [List.cons_append]
    rcases hso : (stepEntry faults now db idx x).1 with _ | e <;>
      (simp only [updateGo, hso]
       rw [ih ys (stepEntry faults now db idx x).2 (idx + 1), hidx]
       simp only [Prod.mk.injEq, PriceUpdateResult.mk.injEq, List.cons_append,
         and_true, true_and]
       omega)

/-- Claim C6: preview and commit classify every entry identically.  For
the entry at position `i`, the preview row is `found` exactly when the
committer's inline resolution — run against the store state it actually
sees, after the first `i` entries have been processed — resolves the
entry (conjuncts 1–2, same product id), a found entry's preview delta is
new price minus the current price of the very product the committer
resolves (conjunct 3), and an entry not found in preview yields the
`product not found` failure for line `i+1` at commit (conjunct 4).
Resolution is by exact article match first, then first `ILIKE` name
match, and is stable across the run because price updates never change
`id`, `article` or `name`. -/
theorem preview_commit_parity (db : DB) (items : List PriceUpdateItem)
    (faults : Nat → EntryFaults) (now : String) (i : Nat) (h : i < items.length) :
    ((previewRow db (items.get ⟨i, h⟩)).found
        = (findProductCommit ((updatePrices db (items.take i) faults now).2)
            (items.get ⟨i, h⟩)).isSome) ∧
    ((findProductCommit ((updatePrices db (items.take i) faults now).2)
        (items.get ⟨i, h⟩)).map (fun p => p.id)
        = (previewRow db (items.get ⟨i, h⟩)).product_id) ∧
    ((previewRow db (items.get ⟨i, h⟩)).found = true →
      ∃ p, findProductCommit db (items.get ⟨i, h⟩) = some p ∧
        (previewRow db (items.get ⟨i, h⟩)).price_change
          = some ((items.get ⟨i, h⟩).price - p.price) ∧
        (previewRow db (items.get ⟨i, h⟩)).product_id = some p.id) ∧
    ((previewRow db (items.get ⟨i, h⟩)).found = false →
      (⟨i + 1, (items.get ⟨i, h⟩).article, (items.get ⟨i, h⟩).name,
          "Товар не найден"⟩ : PriceError)
        ∈ (updatePrices db items faults now).1.errors) := by
  have hstab : (findProductCommit ((updatePrices db (items.take i) faults now).2)
        (items.get ⟨i, h⟩)).map identKey
      = (findProductCommit db (items.get ⟨i, h⟩)).map identKey := by
    apply findProductCommit_stable
    exact updateGo_products_ident faults now (items.take i) db 0
  obtain ⟨hf, hpid, hcp, hpc⟩ := previewRow_fields db (items.get ⟨i, h⟩)
  have hsome : (findProductCommit ((updatePrices db (items.take i) faults now).2)
        (items.get ⟨i, h⟩)).isSome
      = (findProductCommit db (items.get ⟨i, h⟩)).isSome := by
    have h2 := congrArg Option.isSome hstab
    simpa using h2
  refine ⟨?_, ?_, ?_, ?_⟩
  · rw [hf, hsome]
  · have hid : (findProductCommit ((updatePrices db (items.take i) faults now).2)
          (items.get ⟨i, h⟩)).map (fun p => p.id)
        = (findProductCommit db (items.get ⟨i, h⟩)).map (fun p => p.id) := by
      have h2 := congrArg (Option.map (fun t : Nat × String × String => t.1)) hstab
      simpa [Option.map_map] using h2
    rw [hid, hpid]
  · intro hfound
    have hs : (findProductCommit db (items.get ⟨i, h⟩)).isSome := by
      rw [← hf]
      exact hfound
    obtain ⟨p, hp⟩ := Option.isSome_iff_exists.mp hs
    refine ⟨p, hp, ?_, ?_⟩
    · rw [hpc, hp]
      rfl
    · rw [hpid, hp]
      rfl
  · intro hnotfound
    have hnone : findProductCommit db (items.get ⟨i, h⟩) = none := by
      have hs : (findProductCommit db (items.get ⟨i, h⟩)).isSome = false := by
        rw [← hf]
        exact hnotfound
      rcases hres : findProductCommit db (items.get ⟨i, h⟩) with _ | p
      · rfl
      · rw [hres] at hs
        simp at hs
    have hnoneI : findProductCommit ((updateGo faults now db 0 (items.take i)).2)
        (items.get ⟨i, h⟩) = none := by
      have h2 : (findProductCommit ((updatePrices db (items.take i) faults now).2)
          (items.get ⟨i, h⟩)).map identKey = none := by
        rw [hstab, hnone]
        rfl
      exact Option.map_eq_none'.mp h2
    have hsplitList : items.take i ++ items.get ⟨i, h⟩ :: items.drop (i + 1) = items := by
      rw [List.get_eq_getElem, ← List.drop_eq_getElem_cons h, List.take_append_drop]
    have hlen : (items.take i).length = i := List.length_take_of_le (le_of_lt h)
    have hrun := updateGo_append faults now (items.take i)
      (items.get ⟨i, h⟩ :: items.drop (i + 1)) db 0
    rw [hsplitList] at hrun
    have hstep : (stepEntry faults now ((updateGo faults now db 0 (items.take i)).2)
        (0 + (items.take i).length) (items.get ⟨i, h⟩)).1
        = .failure ⟨0 + (items.take i).length + 1, (items.get ⟨i, h⟩).article,
            (items.get ⟨i, h⟩).name, "Товар не найден"⟩ := by
      unfold stepEntry
      rw [hnoneI]
    show _ ∈ (updateGo faults now db 0 items).1.errors
    rw [hrun]
    simp only [updateGo, hstep]
    rw [hlen, Nat.zero_add]
    exact List.mem_append_right _ (List.mem_cons_self _ _)

/-- Witness for `preview_commit_parity` at the concrete store `demoDB`
and entries `c6Items`, instantiated at the second entry, which no
catalog product matches. -/
theorem preview_commit_parity_witness :
    (⟨2, some "ZZZ", none, "Товар не найден"⟩ : PriceError)
      ∈ (updatePrices demoDB c6Items noFaults "t3").1.errors := by
  have h := (preview_commit_parity demoDB c6Items noFaults "t3" 1 (by decide)).2.2.2
    (by decide)
  exact h

end PriceList
